import Mathlib

/- Shallow embedding of src/MsPacmanRL.py (a REINFORCE policy-gradient trainer
with a manual two-layer backpropagation and an RMSProp-style update).

Modelling conventions:
 - numpy float arithmetic is modelled by exact rationals (ℚ) wherever the
   source only adds, multiplies and divides; the softmax forward pass needs
   the real exponential, so that part is modelled over ℝ;
 - np.sqrt is irrational-valued on ℚ, so every place the source calls
   np.sqrt receives an explicit function argument sqrtA : ℚ → ℚ standing for
   it; claims that need a property of np.sqrt state that property as a
   hypothesis on sqrtA;
 - numpy arrays indexed by fixed shapes become curried functions
   Fin m → Fin n → ℚ (matrices) or Fin n → ℚ (vectors); per-episode Python
   lists become List ℚ;
 - the training loop (train, source lines 283-362) is embedded at episode
   granularity: the per-episode trajectory is abstracted into the episode's
   computed gradient pair and total reward, and the episode-end block
   (source lines 330-362) becomes an explicit state-transition function. -/

namespace MsPacmanRL

/-- relu (source lines 90-92): sets every negative entry of an indexed family
to zero, keeping the rest. -/
def relu {ι α : Type} [LinearOrder α] [Zero α] (v : ι → α) : ι → α :=
  fun i => if v i < 0 then 0 else v i

/-- np.dot on two matrices (row-times-column sum of products). -/
def matMul {α : Type} [Semiring α] {a b c : ℕ}
    (M : Fin a → Fin b → α) (N : Fin b → Fin c → α) : Fin a → Fin c → α :=
  fun i k => ∑ j, M i j * N j k

/-- numpy .T on a matrix. -/
def transpose {α : Type} {a b : ℕ} (M : Fin a → Fin b → α) : Fin b → Fin a → α :=
  fun i j => M j i

/-- discount_rewards (source lines 135-145), auxiliary form: processes the
reward list from the last step backward, returning the discounted list
together with the final accumulator value.  The accumulator is reset to zero
whenever the current reward is nonzero, before folding the reward in. -/
def discountAux (gamma : ℚ) : List ℚ → List ℚ × ℚ
  | [] => ([], 0)
  | r :: rest =>
    let p := discountAux gamma rest
    let acc0 : ℚ := if r ≠ 0 then 0 else p.2
    let acc : ℚ := acc0 * gamma + r
    (acc :: p.1, acc)

/-- discount_rewards (source lines 135-145). -/
def discount_rewards (rewards : List ℚ) (gamma : ℚ) : List ℚ :=
  (discountAux gamma rewards).1

/-- np.mean of a one-dimensional array. -/
def npMean (l : List ℚ) : ℚ :=
  l.sum / (l.length : ℚ)

/-- The square of np.std of a one-dimensional array (population variance,
numpy default ddof = 0).  This is rational-valued, unlike np.std itself. -/
def npVarQ (l : List ℚ) : ℚ :=
  ((l.map fun x => (x - npMean l) ^ 2).sum) / (l.length : ℚ)

/-- The mean-centered discounted rewards: the value of the local array
discounted_episode_rewards after source line 152. -/
def centeredDiscount (rewards : List ℚ) (gamma : ℚ) : List ℚ :=
  let d := discount_rewards rewards gamma
  d.map fun x => x - npMean d

/-- The divisor np.std(discounted_episode_rewards) used at source line 153,
with np.sqrt abstracted as sqrtA. -/
def stdDivisor (sqrtA : ℚ → ℚ) (rewards : List ℚ) (gamma : ℚ) : ℚ :=
  sqrtA (npVarQ (centeredDiscount rewards gamma))

/-- discount_with_rewards (source lines 148-154): discount, center, divide by
the standard deviation, then scale each row of gradient_log_p by the
corresponding standardized scalar (numpy broadcasting over the row). -/
def discount_with_rewards (sqrtA : ℚ → ℚ) (gradient_log_p : List (List ℚ))
    (episode_rewards : List ℚ) (gamma : ℚ) : List (List ℚ) :=
  let std := stdDivisor sqrtA episode_rewards gamma
  let standardized := (centeredDiscount episode_rewards gamma).map fun x => x / std
  List.zipWith (fun s row => row.map fun g => g * s) standardized gradient_log_p

/-- np.argmax on a one-dimensional array: the first index at which the
maximum value occurs (numpy returns the first occurrence on ties). -/
def npArgmax (l : List ℚ) : ℕ :=
  match l.maximum with
  | none => 0
  | some m => l.indexOf m

/-- choose_action (source lines 104-109).  The two draws from the random
source are passed in explicitly: random_value models np.random.uniform() and
randAction models np.random.randint(1,5) (so the caller guarantees
1 ≤ randAction < 5).  When random_value ≥ 0.1 the argmax of the probability
vector overwrites the random action. -/
def choose_action (probability : List ℚ) (random_value : ℚ) (randAction : ℕ) : ℕ :=
  if random_value ≥ 1 / 10 then npArgmax probability else randAction

/-- compute_gradient (source lines 111-122).  Arguments are the stacked
per-step matrices of one episode (rows = steps); only weights['2'] is read. -/
def compute_gradient {T H D A : ℕ} (gradient_log_p : Fin T → Fin A → ℚ)
    (hidden_layer_values : Fin T → Fin H → ℚ) (observation_values : Fin T → Fin D → ℚ)
    (w2 : Fin H → Fin A → ℚ) : (Fin H → Fin D → ℚ) × (Fin H → Fin A → ℚ) :=
  let delta_L := gradient_log_p
  let dC_dw2 := matMul (transpose hidden_layer_values) delta_L
  let delta_l2 := matMul delta_L (transpose w2)
  let delta_l2r := fun t => relu (delta_l2 t)
  let dC_dw1 := matMul (transpose delta_l2r) observation_values
  (dC_dw1, dC_dw2)

/-- The epsilon constant of update_weights (source line 127): 1e-5. -/
def epsilonRMS : ℚ := 1 / 100000

/-- The weights dictionary together with the two RMSProp accumulator
dictionaries (expectation_g_squared and g_dict), all mirrored per layer:
w1/w2 are weights['1']/weights['2'], eg1/eg2 are expectation_g_squared['1']
and ['2'], g1/g2 are g_dict['1'] and ['2']. -/
structure NetPack (H D A : ℕ) where
  w1 : Fin H → Fin D → ℚ
  w2 : Fin H → Fin A → ℚ
  eg1 : Fin H → Fin D → ℚ
  eg2 : Fin H → Fin A → ℚ
  g1 : Fin H → Fin D → ℚ
  g2 : Fin H → Fin A → ℚ

/-- The loop body of update_weights (source lines 128-132) for one layer:
returns the new weights, the new squared-gradient accumulator, and the reset
gradient buffer. -/
def rmspropLayer (sqrtA : ℚ → ℚ) (decay_rate learning_rate : ℚ) {m n : ℕ}
    (w eg g : Fin m → Fin n → ℚ) :
    (Fin m → Fin n → ℚ) × (Fin m → Fin n → ℚ) × (Fin m → Fin n → ℚ) :=
  let eg' := fun i j => decay_rate * eg i j + (1 - decay_rate) * g i j ^ 2
  let w' := fun i j => w i j + learning_rate * g i j / sqrtA (eg' i j + epsilonRMS)
  (w', eg', fun _ _ => 0)

/-- update_weights (source lines 125-132), applied to both layers. -/
def update_weights (sqrtA : ℚ → ℚ) (decay_rate learning_rate : ℚ) {H D A : ℕ}
    (p : NetPack H D A) : NetPack H D A :=
  let l1 := rmspropLayer sqrtA decay_rate learning_rate p.w1 p.eg1 p.g1
  let l2 := rmspropLayer sqrtA decay_rate learning_rate p.w2 p.eg2 p.g2
  ⟨l1.1, l2.1, l1.2.1, l2.2.1, l1.2.2, l2.2.2⟩

/-- The optimizer-state initialization of main (source lines 204-208):
expectation_g_squared and g_dict start as all-zero arrays shaped like the
weights. -/
def initPack {H D A : ℕ} (w1 : Fin H → Fin D → ℚ) (w2 : Fin H → Fin A → ℚ) :
    NetPack H D A :=
  ⟨w1, w2, fun _ _ => 0, fun _ _ => 0, fun _ _ => 0, fun _ _ => 0⟩

/-- The hyperparameter set fixed in main (source lines 185-190) and stored in
the checkpoint record. -/
structure Hyper where
  gamma : ℚ
  batch_size : ℕ
  learning_rate : ℚ
  decay_rate : ℚ

/-- The data one completed episode contributes to the episode-end block of
train (source lines 330-362): the per-layer gradients returned by
compute_gradient for that episode, and the episode's total reward
(the value of reward_sum when done becomes true). -/
structure EpData (H D A : ℕ) where
  grad1 : Fin H → Fin D → ℚ
  grad2 : Fin H → Fin A → ℚ
  rs : ℚ

/-- The mutable state of the training loop that survives across episodes:
episode counter, weights plus optimizer state, the running-reward EMA and
its history, and the intra-episode reward_sum (zero at episode boundaries). -/
structure TrainVars (H D A : ℕ) where
  episode_number : ℕ
  pack : NetPack H D A
  running_reward : Option ℚ
  running_reward_list : List ℚ
  reward_sum : ℚ

/-- The episode-end block of train (source lines 330-362): increment the
episode counter, add the episode's gradients into g_dict, run update_weights
exactly when the new counter is a multiple of batch_size, update the
running-reward EMA (running = episodeTotal on the first episode, else
running*0.99 + episodeTotal*0.01), append it to the history, and reset
reward_sum to zero.  The returned Bool records whether update_weights ran. -/
def episodeEnd (sqrtA : ℚ → ℚ) (hp : Hyper) {H D A : ℕ} (ep : EpData H D A)
    (s : TrainVars H D A) : TrainVars H D A × Bool :=
  let n := s.episode_number + 1
  let pack1 : NetPack H D A :=
    ⟨s.pack.w1, s.pack.w2, s.pack.eg1, s.pack.eg2,
     s.pack.g1 + ep.grad1, s.pack.g2 + ep.grad2⟩
  let pack2 :=
    if n % hp.batch_size = 0 then
      update_weights sqrtA hp.decay_rate hp.learning_rate pack1
    else pack1
  let rr : ℚ :=
    match s.running_reward with
    | none => ep.rs
    | some r => r * (99 / 100) + ep.rs * (1 / 100)
  (⟨n, pack2, some rr, s.running_reward_list ++ [rr], 0⟩,
   decide (n % hp.batch_size = 0))

/-- Iterating the episode-end transition over a list of completed episodes
(the while loop of train at episode granularity), collecting for each episode
the flag saying whether update_weights ran at its end. -/
def runEpisodes (sqrtA : ℚ → ℚ) (hp : Hyper) {H D A : ℕ} :
    List (EpData H D A) → TrainVars H D A → TrainVars H D A × List Bool
  | [], s => (s, [])
  | ep :: eps, s =>
    let r1 := episodeEnd sqrtA hp ep s
    let r2 := runEpisodes sqrtA hp eps r1.1
    (r2.1, r1.2 :: r2.2)

/-- Sum of the layer-1 gradients contributed by a list of episodes. -/
def sumGrad1 {H D A : ℕ} (eps : List (EpData H D A)) : Fin H → Fin D → ℚ :=
  (eps.map fun e => e.grad1).sum

/-- Sum of the layer-2 gradients contributed by a list of episodes. -/
def sumGrad2 {H D A : ℕ} (eps : List (EpData H D A)) : Fin H → Fin A → ℚ :=
  (eps.map fun e => e.grad2).sum

/-- The checkpoint record written by train (source lines 364-376): weights,
episode counter, reward_sum, running reward and its history, and the four
hyperparameters. -/
structure Config (H D A : ℕ) where
  w1 : Fin H → Fin D → ℚ
  w2 : Fin H → Fin A → ℚ
  episode_number : ℕ
  reward_sum : ℚ
  running_reward : Option ℚ
  running_reward_list : List ℚ
  gamma : ℚ
  batch_size : ℕ
  learning_rate : ℚ
  decay_rate : ℚ

/-- Saving a checkpoint at the end of training (source lines 367-376). -/
def saveConfig (hp : Hyper) {H D A : ℕ} (s : TrainVars H D A) : Config H D A :=
  ⟨s.pack.w1, s.pack.w2, s.episode_number, s.reward_sum, s.running_reward,
   s.running_reward_list, hp.gamma, hp.batch_size, hp.learning_rate, hp.decay_rate⟩

/-- Loading a checkpoint on resume (source lines 204-208 and 218-256):
weights, episode counter, running reward, history and the hyperparameters
come from the config record; the optimizer accumulators are freshly zeroed
(they are not persisted), and train is invoked with reward_sum = 0. -/
def loadConfig {H D A : ℕ} (c : Config H D A) : Hyper × TrainVars H D A :=
  (⟨c.gamma, c.batch_size, c.learning_rate, c.decay_rate⟩,
   ⟨c.episode_number, initPack c.w1 c.w2, c.running_reward,
    c.running_reward_list, 0⟩)

/-- fake_label (source line 326): 1 when the chosen action equals 2, else 0. -/
def fake_label (action : ℕ) : ℚ :=
  if action = 2 then 1 else 0

/-- loss_function_gradient (source line 327): the scalar fake_label minus the
action-probability vector, broadcast elementwise; this is the per-step
gradient signal appended to episode_gradient_log_ps at source line 328. -/
def loss_function_gradient (action : ℕ) {A : ℕ} (up_probability : Fin A → ℚ) :
    Fin A → ℚ :=
  fun i => fake_label action - up_probability i

/-- softmax (source lines 46-49), over ℝ since it needs the exponential:
subtract the maximum entry, exponentiate, divide by the sum.  numpy's np.max
errors on an empty array, so the embedding takes a vector of positive length
n + 1. -/
noncomputable def softmax {n : ℕ} (x : Fin (n + 1) → ℝ) : Fin (n + 1) → ℝ :=
  let m := Finset.univ.sup' Finset.univ_nonempty x
  fun i => Real.exp (x i - m) / ∑ j, Real.exp (x j - m)

/-- apply_neural_nets (source lines 95-101) over ℝ: hidden layer is the
rectified product W1 · observation, output is softmax of the product
hidden · W2. -/
noncomputable def apply_neural_nets {H D a : ℕ} (w1 : Fin H → Fin D → ℝ)
    (w2 : Fin H → Fin (a + 1) → ℝ) (observation : Fin D → ℝ) :
    (Fin H → ℝ) × (Fin (a + 1) → ℝ) :=
  let hidden_layer_values := fun i => ∑ j, w1 i j * observation j
  let hidden := relu hidden_layer_values
  let output_layer_values := fun k => ∑ i, hidden i * w2 i k
  (hidden, softmax output_layer_values)

/-- The spec's formula for the rectified hidden-layer error of the backward
pass: hiddenError = advantageWeightedGradients · W2ᵗ with negative entries
clipped to zero, written directly as an entrywise sum for comparison with
compute_gradient. -/
def specHiddenError {T H A : ℕ} (glp : Fin T → Fin A → ℚ)
    (w2 : Fin H → Fin A → ℚ) : Fin T → Fin H → ℚ :=
  fun t i => max 0 (∑ a, glp t a * w2 i a)

/-- The spec's formula gradW2 = hiddenActivationsᵗ · advantageWeightedGradients,
written entrywise. -/
def specGradW2 {T H A : ℕ} (hidden : Fin T → Fin H → ℚ)
    (glp : Fin T → Fin A → ℚ) : Fin H → Fin A → ℚ :=
  fun i a => ∑ t, hidden t i * glp t a

/-- The spec's formula gradW1 = hiddenErrorᵗ · features, written entrywise. -/
def specGradW1 {T H D A : ℕ} (glp : Fin T → Fin A → ℚ) (w2 : Fin H → Fin A → ℚ)
    (obs : Fin T → Fin D → ℚ) : Fin H → Fin D → ℚ :=
  fun i d => ∑ t, specHiddenError glp w2 t i * obs t d

/-- A concrete hyperparameter set used by witnesses (batch_size 2 keeps the
concrete runs short; the other values are the source's). -/
def sampleHyper : Hyper :=
  ⟨99 / 100, 2, 1 / 10000, 99 / 100⟩

/-- A concrete 1×1×1 training state at episode counter 0 used by witnesses. -/
def sampleState : TrainVars 1 1 1 :=
  ⟨0, initPack (fun _ _ => 0) (fun _ _ => 0), none, [], 0⟩

/-- A concrete completed episode with all-ones gradients used by witnesses. -/
def sampleEp : EpData 1 1 1 :=
  ⟨fun _ _ => 1, fun _ _ => 1, 0⟩

/- ------------------------------------------------------------------ -/
/- Helper lemmas shared by the claim theorems.                         -/
/- ------------------------------------------------------------------ -/

/-- The accumulator returned by discountAux equals the head of the discounted
list (or 0 for the empty list). -/
lemma discountAux_snd (gamma : ℚ) (l : List ℚ) :
    (discountAux gamma l).2 = (discountAux gamma l).1.headD 0 := by
  cases l with
  | nil => rfl
  | cons r rest => simp [discountAux]

/-- discountAux maps a constant reward list to itself, with final accumulator
equal to the constant (or 0 when the list is empty). -/
lemma discountAux_replicate (gamma c : ℚ) :
    ∀ n : ℕ, discountAux gamma (List.replicate n c) =
      (List.replicate n c, if n = 0 then 0 else c) := by
  intro n
  induction n with
  | zero => rfl
  | succ n ih =>
    by_cases hc : c = 0
    · subst hc
      simp [List.replicate_succ, discountAux, ih]
    · simp [List.replicate_succ, discountAux, ih, hc]

/-- discount_rewards is the identity on constant reward lists. -/
lemma discount_rewards_replicate (n : ℕ) (c gamma : ℚ) :
    discount_rewards (List.replicate n c) gamma = List.replicate n c := by
  simp [discount_rewards, discountAux_replicate]

/-- np.mean of a nonempty constant list is the constant. -/
lemma npMean_replicate (n : ℕ) (c : ℚ) :
    npMean (List.replicate (n + 1) c) = c := by
  have hne : ((n : ℚ) + 1) ≠ 0 := by positivity
  simp [npMean, List.sum_replicate, nsmul_eq_mul]
  field_simp

/-- Centering a nonempty constant discounted-reward list yields the all-zero
list. -/
lemma centeredDiscount_replicate (n : ℕ) (c gamma : ℚ) :
    centeredDiscount (List.replicate (n + 1) c) gamma =
      List.replicate (n + 1) 0 := by
  simp [centeredDiscount, discount_rewards_replicate, npMean_replicate]

/-- The variance of a nonempty all-zero list is zero. -/
lemma npVarQ_replicate_zero (n : ℕ) :
    npVarQ (List.replicate (n + 1) (0 : ℚ)) = 0 := by
  simp [npVarQ, npMean, List.sum_replicate]

/-- Claim C6: discount_rewards processes the reward sequence from the last
step backward with a running accumulator initialized to 0, resetting the
accumulator to 0 whenever the current reward is nonzero before folding it in
as accumulator = accumulator * gamma + reward, and in particular
discount([1,0,0], 0.5) = [1.0, 0.0, 0.0] and
discount([0,0,1], 0.5) = [0.25, 0.5, 1.0].  The backward scan is stated as
the equivalent head recurrence: the value at a step is (0 if the step's
reward is nonzero, else the already-discounted value of the next step)
times gamma plus the step's reward. -/
theorem discount_rewards_backward_scan :
    (∀ gamma : ℚ, discount_rewards [] gamma = []) ∧
    (∀ (r : ℚ) (rest : List ℚ) (gamma : ℚ),
      discount_rewards (r :: rest) gamma =
        ((if r ≠ 0 then 0 else (discount_rewards rest gamma).headD 0) * gamma + r)
          :: discount_rewards rest gamma) ∧
    discount_rewards [1, 0, 0] (1 / 2) = [1, 0, 0] ∧
    discount_rewards [0, 0, 1] (1 / 2) = [1 / 4, 1 / 2, 1] := by
  refine ⟨fun _ => rfl, fun r rest gamma => ?_, ?_, ?_⟩
  · simp only [discount_rewards, discountAux, ← discountAux_snd]
  · norm_num [discount_rewards, discountAux]
  · norm_num [discount_rewards, discountAux]

/-- Claim C1: the code side of the degenerate-variance situation.  For every
episode with all-identical rewards (in particular all zero), the discounted
rewards equal the rewards themselves, the mean-centered discounted rewards
are identically zero, so the variance is zero and the divisor
np.std(...) computed at source line 153 is exactly np.sqrt 0 — i.e. zero.
discount_with_rewards contains no guard for this case and divides by that
zero standard deviation unconditionally; the concluding conjunct evaluates
the divisor at the concrete failing input rewards = [0,0,0], gamma = 0.99. -/
theorem discount_with_rewards_degenerate_std :
    (∀ (n : ℕ) (c gamma : ℚ),
      discount_rewards (List.replicate n c) gamma = List.replicate n c) ∧
    (∀ (n : ℕ) (c gamma : ℚ),
      centeredDiscount (List.replicate (n + 1) c) gamma =
        List.replicate (n + 1) 0) ∧
    (∀ (n : ℕ) (c gamma : ℚ),
      npVarQ (centeredDiscount (List.replicate (n + 1) c) gamma) = 0) ∧
    (∀ (sqrtA : ℚ → ℚ) (n : ℕ) (c gamma : ℚ),
      stdDivisor sqrtA (List.replicate (n + 1) c) gamma = sqrtA 0) ∧
    stdDivisor (fun x => x) [0, 0, 0] (99 / 100) = 0 := by
  refine ⟨discount_rewards_replicate, centeredDiscount_replicate, ?_, ?_, ?_⟩
  · intro n c gamma
    rw [centeredDiscount_replicate, npVarQ_replicate_zero]
  · intro sqrtA n c gamma
    rw [stdDivisor, centeredDiscount_replicate, npVarQ_replicate_zero]
  · norm_num [stdDivisor, npVarQ, centeredDiscount, discount_rewards,
      discountAux, npMean]

/-- Claim C3: for every weight matrix, update_weights performs exactly
gradAccum := decayRate * gradAccum + (1 - decayRate) * gradBuffer² (the
elementwise square), then weights := weights + learningRate * gradBuffer
/ sqrt(gradAccum + 1e-5) (gradient ascent: the update is added), and after
the call the gradient buffer of every layer is exactly zero. -/
theorem update_weights_rmsprop_step :
    ∀ (sqrtA : ℚ → ℚ) (decay_rate learning_rate : ℚ) (H D A : ℕ)
      (p : NetPack H D A),
    ((update_weights sqrtA decay_rate learning_rate p).eg1 = fun i j =>
        decay_rate * p.eg1 i j + (1 - decay_rate) * p.g1 i j ^ 2) ∧
    ((update_weights sqrtA decay_rate learning_rate p).eg2 = fun i j =>
        decay_rate * p.eg2 i j + (1 - decay_rate) * p.g2 i j ^ 2) ∧
    ((update_weights sqrtA decay_rate learning_rate p).w1 = fun i j =>
        p.w1 i j + learning_rate * p.g1 i j /
          sqrtA ((update_weights sqrtA decay_rate learning_rate p).eg1 i j
            + epsilonRMS)) ∧
    ((update_weights sqrtA decay_rate learning_rate p).w2 = fun i j =>
        p.w2 i j + learning_rate * p.g2 i j /
          sqrtA ((update_weights sqrtA decay_rate learning_rate p).eg2 i j
            + epsilonRMS)) ∧
    ((update_weights sqrtA decay_rate learning_rate p).g1 = fun _ _ => 0) ∧
    ((update_weights sqrtA decay_rate learning_rate p).g2 = fun _ _ => 0) := by
  intro sqrtA decay_rate learning_rate H D A p
  exact ⟨rfl, rfl, rfl, rfl, rfl, rfl⟩

/-- Rewriting the source's rectification (an if on negativity) as a max. -/
lemma ite_neg_eq_max (x : ℚ) : (if x < 0 then (0 : ℚ) else x) = max 0 x := by
  rcases lt_or_le x 0 with h | h
  · simp [h, max_eq_left h.le]
  · simp [not_lt.mpr h, max_eq_right h]

/-- Claim C5: compute_gradient returns exactly
gradW2 = hiddenActivationsᵗ · advantageWeightedGradients and
gradW1 = hiddenErrorᵗ · features, where hiddenError is
advantageWeightedGradients · W2ᵗ with negative entries clipped to zero
(gating by the later layer's error); the weights argument is only read. -/
theorem compute_gradient_backprop :
    ∀ (T H D A : ℕ) (glp : Fin T → Fin A → ℚ) (hidden : Fin T → Fin H → ℚ)
      (obs : Fin T → Fin D → ℚ) (w2 : Fin H → Fin A → ℚ),
    (compute_gradient glp hidden obs w2).2 = specGradW2 hidden glp ∧
    (compute_gradient glp hidden obs w2).1 = specGradW1 glp w2 obs := by
  intro T H D A glp hidden obs w2
  constructor
  · rfl
  · funext i d
    simp only [compute_gradient, specGradW1, specHiddenError, matMul,
      transpose, relu, ite_neg_eq_max]

/-- Claim C9: the per-step gradient signal appended to the trajectory buffer
equals (1 if the chosen action equals 2, else 0) minus the full
action-probability vector, elementwise over all action entries; the label
depends only on whether the action index is 2, so all non-2 actions produce
the same signal. -/
theorem loss_gradient_keyed_to_action_two :
    ∀ (A : ℕ) (action : ℕ) (p : Fin A → ℚ),
    (∀ i, loss_function_gradient action p i =
      (if action = 2 then 1 else 0) - p i) ∧
    (action = 2 → loss_function_gradient action p = fun i => 1 - p i) ∧
    (action ≠ 2 → loss_function_gradient action p = fun i => 0 - p i) ∧
    (∀ action' : ℕ, action ≠ 2 → action' ≠ 2 →
      loss_function_gradient action p = loss_function_gradient action' p) := by
  intro A action p
  refine ⟨fun i => rfl, fun h => ?_, fun h => ?_, fun action' h h' => ?_⟩
  · funext i
    simp [loss_function_gradient, fake_label, h]
  · funext i
    simp [loss_function_gradient, fake_label, h]
  · funext i
    simp [loss_function_gradient, fake_label, h, h']

/-- Witness for claim C9 at the concrete input action = 3 (an action that was
actually taken but is not index 2), probability vector constantly 1/2 over
one action: the appended signal is 0 - p. -/
theorem loss_gradient_keyed_to_action_two_witness :
    loss_function_gradient 3 (fun _ : Fin 1 => (1 : ℚ) / 2) =
      fun i => 0 - (fun _ : Fin 1 => (1 : ℚ) / 2) i :=
  (loss_gradient_keyed_to_action_two 1 3 (fun _ => (1 : ℚ) / 2)).2.2.1
    (by decide)

/-- The denominator of softmax is positive. -/
lemma softmax_den_pos {n : ℕ} (x : Fin (n + 1) → ℝ) (m : ℝ) :
    0 < ∑ j, Real.exp (x j - m) :=
  Finset.sum_pos (fun _ _ => Real.exp_pos _) Finset.univ_nonempty

/-- In exact arithmetic, subtracting the maximum logit before exponentiating
does not change the softmax value. -/
lemma softmax_eq_unstabilized {n : ℕ} (x : Fin (n + 1) → ℝ) (i : Fin (n + 1)) :
    softmax x i = Real.exp (x i) / ∑ j, Real.exp (x j) := by
  have hm : Real.exp (Finset.univ.sup' Finset.univ_nonempty x) ≠ 0 :=
    (Real.exp_pos _).ne'
  have hs : (∑ j, Real.exp (x j)) ≠ 0 :=
    (Finset.sum_pos (fun j _ => Real.exp_pos _) Finset.univ_nonempty).ne'
  simp only [softmax, Real.exp_sub, ← Finset.sum_div]
  rw [div_div_div_cancel_right₀ hm]

/-- The softmax vector sums to exactly one. -/
lemma softmax_sum_one {n : ℕ} (x : Fin (n + 1) → ℝ) :
    ∑ k, softmax x k = 1 := by
  simp only [softmax, ← Finset.sum_div]
  exact div_self (softmax_den_pos x _).ne'

/-- Claim C7: for every weight pair and feature vector, the forward pass
returns a hidden vector with no negative entries (ReLU postcondition) and an
action-probability vector whose entries are non-negative and sum to exactly
one (the floating tolerance of the spec is exact equality in the real-number
model); moreover the max-subtracting stabilized softmax agrees with the
textbook softmax for arbitrary logits. -/
theorem forward_pass_simplex :
    ∀ (H D a : ℕ) (w1 : Fin H → Fin D → ℝ) (w2 : Fin H → Fin (a + 1) → ℝ)
      (obs : Fin D → ℝ),
    (∀ i, 0 ≤ (apply_neural_nets w1 w2 obs).1 i) ∧
    (∀ k, 0 ≤ (apply_neural_nets w1 w2 obs).2 k) ∧
    (∑ k, (apply_neural_nets w1 w2 obs).2 k = 1) ∧
    (∀ (n : ℕ) (x : Fin (n + 1) → ℝ) (i : Fin (n + 1)),
      softmax x i = Real.exp (x i) / ∑ j, Real.exp (x j)) := by
  intro H D a w1 w2 obs
  refine ⟨fun i => ?_, fun k => ?_, ?_, fun n x i => softmax_eq_unstabilized x i⟩
  · simp only [apply_neural_nets, relu]
    split
    · exact le_refl 0
    · exact le_of_not_lt (by assumption)
  · exact div_nonneg (Real.exp_pos _).le (softmax_den_pos _ _).le
  · exact softmax_sum_one _

/-- Every position strictly before indexOf holds a different value. -/
lemma getD_ne_of_lt_indexOf (l : List ℚ) (a : ℚ) :
    ∀ j, j < l.indexOf a → l.getD j 0 ≠ a := by
  induction l with
  | nil =>
    intro j hj
    simp [List.indexOf] at hj
  | cons b t ih =>
    intro j hj
    by_cases hb : b = a
    · rw [List.indexOf_cons_eq t hb] at hj
      omega
    · rw [List.indexOf_cons_ne t hb] at hj
      cases j with
      | zero => simpa using hb
      | succ j => exact ih j (Nat.lt_of_succ_lt_succ hj)

/-- np.argmax on a nonempty list returns an index inside the list, its value
dominates every entry, and every strictly earlier entry is strictly smaller
(first-occurrence tie-breaking). -/
lemma npArgmax_spec (p : List ℚ) (hp : p ≠ []) :
    npArgmax p < p.length ∧
    (∀ x ∈ p, x ≤ p.getD (npArgmax p) 0) ∧
    (∀ j, j < npArgmax p → p.getD j 0 < p.getD (npArgmax p) 0) := by
  obtain ⟨m, hm⟩ : ∃ m, p.maximum = some m := by
    cases h : p.maximum with
    | bot => exact absurd (List.maximum_eq_none.mp h) hp
    | coe m => exact ⟨m, rfl⟩
  have hmem : m ∈ p := List.maximum_mem hm
  have hidx : npArgmax p = p.indexOf m := by
    simp [npArgmax, hm]
  have hlt : p.indexOf m < p.length := List.indexOf_lt_length.mpr hmem
  have hget : p.getD (p.indexOf m) 0 = m := by
    rw [List.getD_eq_getElem _ _ hlt]
    exact List.getElem_indexOf hlt
  refine ⟨by rw [hidx]; exact hlt, ?_, ?_⟩
  · intro x hx
    rw [hidx, hget]
    exact List.le_maximum_of_mem hx hm
  · intro j hj
    rw [hidx] at hj
    rw [hidx, hget]
    have hjlen : j < p.length := hj.trans hlt
    have hmem' : p.getD j 0 ∈ p := by
      rw [List.getD_eq_getElem _ _ hjlen]
      exact List.getElem_mem hjlen
    exact lt_of_le_of_ne (List.le_maximum_of_mem hmem' hm)
      (getD_ne_of_lt_indexOf p m j hj)

/-- Counterexample to claim C2 as stated: at the concrete probability vector
[1,0,0,0] (four actions, as produced by the 200×4 output layer), an
exploration draw random_value = 0 < 0.1 with the uniform integer draw 4 from
np.random.randint(1,5) makes choose_action return 4, which lies outside the
index range {0,...,3} that argmax can return; so the exploration branch does
not sample from the same index range as argmax. -/
theorem choose_action_explore_range_cex :
    (0 : ℚ) < 1 / 10 ∧ (1 : ℕ) ≤ 4 ∧ (4 : ℕ) < 5 ∧
    choose_action [1, 0, 0, 0] 0 4 = 4 ∧
    ¬ (choose_action [1, 0, 0, 0] 0 4 < ([1, 0, 0, 0] : List ℚ).length) ∧
    npArgmax [1, 0, 0, 0] < ([1, 0, 0, 0] : List ℚ).length := by
  norm_num [choose_action, npArgmax, List.maximum, List.argmax, List.argAux,
    List.indexOf, List.findIdx_cons, Bool.cond_eq_ite, beq_iff_eq]

/-- Claim C2 (amended): for every probability vector and every draw of the
random source, choose_action returns argmax(actionProbabilities) — the first
index attaining the maximum — when the uniform draw is ≥ 0.1, and otherwise
returns the injected uniform integer draw from {1,2,3,4} unchanged,
independent of the network's output; the exploration range {1,...,4} is
offset by one from the index range {0,...,length-1} that argmax returns. -/
theorem choose_action_policy (p : List ℚ) (r : ℚ) (a : ℕ)
    (hp : p ≠ []) (h1 : 1 ≤ a) (h5 : a < 5) :
    (1 / 10 ≤ r →
      choose_action p r a = npArgmax p ∧
      npArgmax p < p.length ∧
      (∀ x ∈ p, x ≤ p.getD (npArgmax p) 0) ∧
      (∀ j, j < npArgmax p → p.getD j 0 < p.getD (npArgmax p) 0)) ∧
    (r < 1 / 10 →
      choose_action p r a = a ∧ 1 ≤ choose_action p r a ∧
        choose_action p r a < 5) := by
  constructor
  · intro hr
    obtain ⟨hlen, hmax, hfirst⟩ := npArgmax_spec p hp
    refine ⟨?_, hlen, hmax, hfirst⟩
    unfold choose_action
    rw [if_pos hr]
  · intro hr
    have hne : ¬ (1 / 10 ≤ r) := not_le.mpr hr
    unfold choose_action
    rw [if_neg hne]
    exact ⟨rfl, h1, h5⟩

/-- Witness for the amended claim C2 at the concrete inputs p = [1, 2],
random_value = 1/2 (exploitation branch) and integer draw 1. -/
theorem choose_action_policy_witness :
    ([1, 2] : List ℚ) ≠ [] ∧ (1 : ℕ) ≤ 1 ∧ (1 : ℕ) < 5 ∧
    (((1 : ℚ) / 10 ≤ 1 / 2 →
      choose_action [1, 2] (1 / 2) 1 = npArgmax [1, 2] ∧
      npArgmax [1, 2] < ([1, 2] : List ℚ).length ∧
      (∀ x ∈ ([1, 2] : List ℚ), x ≤ ([1, 2] : List ℚ).getD (npArgmax [1, 2]) 0) ∧
      (∀ j, j < npArgmax [1, 2] →
        ([1, 2] : List ℚ).getD j 0 < ([1, 2] : List ℚ).getD (npArgmax [1, 2]) 0)) ∧
    ((1 : ℚ) / 2 < 1 / 10 →
      choose_action [1, 2] (1 / 2) 1 = 1 ∧ 1 ≤ choose_action [1, 2] (1 / 2) 1 ∧
        choose_action [1, 2] (1 / 2) 1 < 5)) :=
  ⟨by decide, le_refl 1, by norm_num,
   choose_action_policy [1, 2] (1 / 2) 1 (by decide) (le_refl 1) (by norm_num)⟩

/-- One rmsprop layer update keeps the squared-gradient accumulator
entrywise non-negative when 0 ≤ decay_rate ≤ 1. -/
lemma rmspropLayer_eg_nonneg {m n : ℕ} (sqrtA : ℚ → ℚ)
    (decay_rate learning_rate : ℚ) (h0 : 0 ≤ decay_rate) (h1 : decay_rate ≤ 1)
    (w eg g : Fin m → Fin n → ℚ) (heg : ∀ i j, 0 ≤ eg i j) :
    ∀ i j, 0 ≤ (rmspropLayer sqrtA decay_rate learning_rate w eg g).2.1 i j := by
  intro i j
  have hd : 0 ≤ 1 - decay_rate := by linarith
  have := heg i j
  have hsq : 0 ≤ g i j ^ 2 := sq_nonneg _
  simp only [rmspropLayer]
  positivity

/-- update_weights keeps both squared-gradient accumulators entrywise
non-negative when 0 ≤ decay_rate ≤ 1. -/
lemma update_weights_eg_nonneg {H D A : ℕ} (sqrtA : ℚ → ℚ)
    (decay_rate learning_rate : ℚ) (h0 : 0 ≤ decay_rate) (h1 : decay_rate ≤ 1)
    (p : NetPack H D A) (he1 : ∀ i j, 0 ≤ p.eg1 i j)
    (he2 : ∀ i j, 0 ≤ p.eg2 i j) :
    (∀ i j, 0 ≤ (update_weights sqrtA decay_rate learning_rate p).eg1 i j) ∧
    (∀ i j, 0 ≤ (update_weights sqrtA decay_rate learning_rate p).eg2 i j) :=
  ⟨rmspropLayer_eg_nonneg sqrtA decay_rate learning_rate h0 h1 p.w1 p.eg1 p.g1 he1,
   rmspropLayer_eg_nonneg sqrtA decay_rate learning_rate h0 h1 p.w2 p.eg2 p.g2 he2⟩

/-- The episode-end transition keeps both squared-gradient accumulators
entrywise non-negative when 0 ≤ decay_rate ≤ 1. -/
lemma episodeEnd_eg_nonneg {H D A : ℕ} (sqrtA : ℚ → ℚ) (hp : Hyper)
    (h0 : 0 ≤ hp.decay_rate) (h1 : hp.decay_rate ≤ 1) (ep : EpData H D A)
    (s : TrainVars H D A) (he1 : ∀ i j, 0 ≤ s.pack.eg1 i j)
    (he2 : ∀ i j, 0 ≤ s.pack.eg2 i j) :
    (∀ i j, 0 ≤ (episodeEnd sqrtA hp ep s).1.pack.eg1 i j) ∧
    (∀ i j, 0 ≤ (episodeEnd sqrtA hp ep s).1.pack.eg2 i j) := by
  simp only [episodeEnd]
  by_cases hb : (s.episode_number + 1) % hp.batch_size = 0
  · rw [if_pos hb]
    exact update_weights_eg_nonneg sqrtA _ _ h0 h1 _ he1 he2
  · rw [if_neg hb]
    exact ⟨he1, he2⟩

/-- Running any number of episodes keeps both squared-gradient accumulators
entrywise non-negative when 0 ≤ decay_rate ≤ 1. -/
lemma runEpisodes_eg_nonneg {H D A : ℕ} (sqrtA : ℚ → ℚ) (hp : Hyper)
    (h0 : 0 ≤ hp.decay_rate) (h1 : hp.decay_rate ≤ 1) :
    ∀ (eps : List (EpData H D A)) (s : TrainVars H D A),
      (∀ i j, 0 ≤ s.pack.eg1 i j) → (∀ i j, 0 ≤ s.pack.eg2 i j) →
      (∀ i j, 0 ≤ (runEpisodes sqrtA hp eps s).1.pack.eg1 i j) ∧
      (∀ i j, 0 ≤ (runEpisodes sqrtA hp eps s).1.pack.eg2 i j) := by
  intro eps
  induction eps with
  | nil => intro s he1 he2; exact ⟨he1, he2⟩
  | cons ep eps ih =>
    intro s he1 he2
    obtain ⟨k1, k2⟩ := episodeEnd_eg_nonneg sqrtA hp h0 h1 ep s he1 he2
    exact ih _ k1 k2

/-- Claim C10: every entry of the squared-gradient accumulator
(expectation_g_squared) is non-negative at all times — it starts as all
zeros, one update forms decayRate * old + (1 - decayRate) * g² which is
non-negative for 0 ≤ decayRate ≤ 1, and the property is preserved across any
run of episodes — so the argument of the square root in the weight update is
at least epsilon = 1e-5 > 0, and (np.sqrt being positive on positive input)
the division in the weight update is never by zero. -/
theorem gradAccum_nonneg_invariant (sqrtA : ℚ → ℚ) (hp : Hyper)
    (h0 : 0 ≤ hp.decay_rate) (h1 : hp.decay_rate ≤ 1)
    (hs : ∀ x : ℚ, 0 < x → 0 < sqrtA x) :
    (∀ (H D A : ℕ) (w1 : Fin H → Fin D → ℚ) (w2 : Fin H → Fin A → ℚ),
      (∀ i j, (initPack w1 w2).eg1 i j = 0) ∧
      (∀ i j, (initPack w1 w2).eg2 i j = 0)) ∧
    (∀ (H D A : ℕ) (eps : List (EpData H D A)) (s : TrainVars H D A),
      (∀ i j, 0 ≤ s.pack.eg1 i j) → (∀ i j, 0 ≤ s.pack.eg2 i j) →
      (∀ i j, 0 ≤ (runEpisodes sqrtA hp eps s).1.pack.eg1 i j) ∧
      (∀ i j, 0 ≤ (runEpisodes sqrtA hp eps s).1.pack.eg2 i j)) ∧
    (∀ (H D A : ℕ) (p : NetPack H D A),
      (∀ i j, 0 ≤ p.eg1 i j) → (∀ i j, 0 ≤ p.eg2 i j) →
      (∀ i j, epsilonRMS ≤
        (update_weights sqrtA hp.decay_rate hp.learning_rate p).eg1 i j
          + epsilonRMS) ∧
      (∀ i j, epsilonRMS ≤
        (update_weights sqrtA hp.decay_rate hp.learning_rate p).eg2 i j
          + epsilonRMS) ∧
      (∀ i j, sqrtA
        ((update_weights sqrtA hp.decay_rate hp.learning_rate p).eg1 i j
          + epsilonRMS) ≠ 0) ∧
      (∀ i j, sqrtA
        ((update_weights sqrtA hp.decay_rate hp.learning_rate p).eg2 i j
          + epsilonRMS) ≠ 0)) ∧
    (0 : ℚ) < epsilonRMS := by
  have heps : (0 : ℚ) < epsilonRMS := by norm_num [epsilonRMS]
  refine ⟨fun H D A w1 w2 => ⟨fun _ _ => rfl, fun _ _ => rfl⟩,
    fun H D A eps s => runEpisodes_eg_nonneg sqrtA hp h0 h1 eps s,
    fun H D A p he1 he2 => ?_, heps⟩
  obtain ⟨k1, k2⟩ := update_weights_eg_nonneg sqrtA hp.decay_rate
    hp.learning_rate h0 h1 p he1 he2
  have b1 : ∀ (i : Fin H) (j : Fin D), epsilonRMS ≤
      (update_weights sqrtA hp.decay_rate hp.learning_rate p).eg1 i j
        + epsilonRMS := fun i j => le_add_of_nonneg_left (k1 i j)
  have b2 : ∀ (i : Fin H) (j : Fin A), epsilonRMS ≤
      (update_weights sqrtA hp.decay_rate hp.learning_rate p).eg2 i j
        + epsilonRMS := fun i j => le_add_of_nonneg_left (k2 i j)
  exact ⟨b1, b2,
    fun i j => (hs _ (lt_of_lt_of_le heps (b1 i j))).ne',
    fun i j => (hs _ (lt_of_lt_of_le heps (b2 i j))).ne'⟩

/-- Witness for claim C10 at sqrtA = identity (positive on positives) and the
source's hyperparameters gamma = 0.99, batch_size = 5, learning_rate = 1e-4,
decay_rate = 0.99. -/
theorem gradAccum_nonneg_invariant_witness :
    (0 : ℚ) ≤ (99 : ℚ) / 100 ∧ (99 : ℚ) / 100 ≤ 1 ∧
    (∀ x : ℚ, 0 < x → 0 < (fun y : ℚ => y) x) ∧
    ((∀ (H D A : ℕ) (w1 : Fin H → Fin D → ℚ) (w2 : Fin H → Fin A → ℚ),
      (∀ i j, (initPack w1 w2).eg1 i j = 0) ∧
      (∀ i j, (initPack w1 w2).eg2 i j = 0)) ∧
    (∀ (H D A : ℕ) (eps : List (EpData H D A)) (s : TrainVars H D A),
      (∀ i j, 0 ≤ s.pack.eg1 i j) → (∀ i j, 0 ≤ s.pack.eg2 i j) →
      (∀ i j, 0 ≤ (runEpisodes (fun y : ℚ => y)
        ⟨99 / 100, 5, 1 / 10000, 99 / 100⟩ eps s).1.pack.eg1 i j) ∧
      (∀ i j, 0 ≤ (runEpisodes (fun y : ℚ => y)
        ⟨99 / 100, 5, 1 / 10000, 99 / 100⟩ eps s).1.pack.eg2 i j)) ∧
    (∀ (H D A : ℕ) (p : NetPack H D A),
      (∀ i j, 0 ≤ p.eg1 i j) → (∀ i j, 0 ≤ p.eg2 i j) →
      (∀ i j, epsilonRMS ≤
        (update_weights (fun y : ℚ => y) (99 / 100) (1 / 10000) p).eg1 i j
          + epsilonRMS) ∧
      (∀ i j, epsilonRMS ≤
        (update_weights (fun y : ℚ => y) (99 / 100) (1 / 10000) p).eg2 i j
          + epsilonRMS) ∧
      (∀ i j, (fun y : ℚ => y)
        ((update_weights (fun y : ℚ => y) (99 / 100) (1 / 10000) p).eg1 i j
          + epsilonRMS) ≠ 0) ∧
      (∀ i j, (fun y : ℚ => y)
        ((update_weights (fun y : ℚ => y) (99 / 100) (1 / 10000) p).eg2 i j
          + epsilonRMS) ≠ 0)) ∧
    (0 : ℚ) < epsilonRMS) :=
  ⟨by norm_num, by norm_num, fun x hx => hx,
   gradAccum_nonneg_invariant (fun y : ℚ => y)
     ⟨99 / 100, 5, 1 / 10000, 99 / 100⟩ (by norm_num) (by norm_num)
     (fun x hx => hx)⟩

/-- The episode-end transition always increments the episode counter. -/
lemma episodeEnd_episode_number {H D A : ℕ} (sqrtA : ℚ → ℚ) (hp : Hyper)
    (ep : EpData H D A) (s : TrainVars H D A) :
    (episodeEnd sqrtA hp ep s).1.episode_number = s.episode_number + 1 := rfl

/-- Off a batch boundary, the episode-end transition only accumulates the
episode gradients into the buffer and leaves weights and accumulators
untouched. -/
lemma episodeEnd_pack_no_update {H D A : ℕ} (sqrtA : ℚ → ℚ) (hp : Hyper)
    (ep : EpData H D A) (s : TrainVars H D A)
    (h : (s.episode_number + 1) % hp.batch_size ≠ 0) :
    (episodeEnd sqrtA hp ep s).1.pack =
      ⟨s.pack.w1, s.pack.w2, s.pack.eg1, s.pack.eg2,
       s.pack.g1 + ep.grad1, s.pack.g2 + ep.grad2⟩ := by
  simp [episodeEnd, h]

/-- The per-episode update flags of a run are determined by the starting
episode counter, the batch size and the number of episodes: the flag of the
j-th completed episode is set exactly when counter + j + 1 is a multiple of
batch_size. -/
lemma runEpisodes_flags {H D A : ℕ} (sqrtA : ℚ → ℚ) (hp : Hyper) :
    ∀ (eps : List (EpData H D A)) (s : TrainVars H D A),
      (runEpisodes sqrtA hp eps s).2 =
        (List.range eps.length).map
          (fun j => decide ((s.episode_number + j + 1) % hp.batch_size = 0)) := by
  intro eps
  induction eps with
  | nil => intro s; rfl
  | cons ep eps ih =>
    intro s
    have hcons : (runEpisodes sqrtA hp (ep :: eps) s).2
        = (episodeEnd sqrtA hp ep s).2
          :: (runEpisodes sqrtA hp eps (episodeEnd sqrtA hp ep s).1).2 := rfl
    rw [hcons, ih]
    simp only [List.length_cons, List.range_succ_eq_map, List.map_cons,
      List.map_map, episodeEnd_episode_number]
    refine congrArg₂ List.cons ?_ ?_
    · show decide ((s.episode_number + 1) % hp.batch_size = 0) = _
      norm_num
    · refine List.map_congr_left fun j _ => ?_
      have harith : s.episode_number + 1 + j + 1 = s.episode_number + (j + 1) + 1 := by
        omega
      simp [Function.comp, harith]

/-- sumGrad1 distributes over cons. -/
lemma sumGrad1_cons {H D A : ℕ} (ep : EpData H D A) (eps : List (EpData H D A)) :
    sumGrad1 (ep :: eps) = ep.grad1 + sumGrad1 eps := by
  simp [sumGrad1]

/-- sumGrad2 distributes over cons. -/
lemma sumGrad2_cons {H D A : ℕ} (ep : EpData H D A) (eps : List (EpData H D A)) :
    sumGrad2 (ep :: eps) = ep.grad2 + sumGrad2 eps := by
  simp [sumGrad2]

/-- A run in which no episode ends on a batch boundary leaves the weights and
accumulators unchanged and leaves the gradient buffer equal to its initial
value plus the sum of the episode gradients. -/
lemma runEpisodes_no_update {H D A : ℕ} (sqrtA : ℚ → ℚ) (hp : Hyper) :
    ∀ (eps : List (EpData H D A)) (s : TrainVars H D A),
      (∀ j, j < eps.length → (s.episode_number + j + 1) % hp.batch_size ≠ 0) →
      (runEpisodes sqrtA hp eps s).1.pack.w1 = s.pack.w1 ∧
      (runEpisodes sqrtA hp eps s).1.pack.w2 = s.pack.w2 ∧
      (runEpisodes sqrtA hp eps s).1.pack.eg1 = s.pack.eg1 ∧
      (runEpisodes sqrtA hp eps s).1.pack.eg2 = s.pack.eg2 ∧
      (runEpisodes sqrtA hp eps s).1.pack.g1 = s.pack.g1 + sumGrad1 eps ∧
      (runEpisodes sqrtA hp eps s).1.pack.g2 = s.pack.g2 + sumGrad2 eps := by
  intro eps
  induction eps with
  | nil =>
    intro s _
    refine ⟨rfl, rfl, rfl, rfl, ?_, ?_⟩ <;>
      simp [runEpisodes, sumGrad1, sumGrad2]
  | cons ep eps ih =>
    intro s h
    have h0 : (s.episode_number + 1) % hp.batch_size ≠ 0 := by
      have := h 0 (by simp)
      simpa using this
    have hrun : (runEpisodes sqrtA hp (ep :: eps) s).1
        = (runEpisodes sqrtA hp eps (episodeEnd sqrtA hp ep s).1).1 := rfl
    have hshift : ∀ j, j < eps.length →
        ((episodeEnd sqrtA hp ep s).1.episode_number + j + 1) % hp.batch_size ≠ 0 := by
      intro j hj
      have harith : s.episode_number + (j + 1) + 1 = s.episode_number + 1 + j + 1 := by
        omega
      have := h (j + 1) (by simpa using Nat.succ_lt_succ hj)
      rw [harith] at this
      simpa [episodeEnd_episode_number] using this
    obtain ⟨w1e, w2e, e1e, e2e, g1e, g2e⟩ := ih _ hshift
    rw [episodeEnd_pack_no_update sqrtA hp ep s h0] at w1e w2e e1e e2e g1e g2e
    rw [hrun]
    refine ⟨w1e, w2e, e1e, e2e, ?_, ?_⟩
    · rw [g1e, sumGrad1_cons, add_assoc]
    · rw [g2e, sumGrad2_cons, add_assoc]

/-- From a counter at a multiple of the batch size, the flag pattern of a run
of exactly batch_size episodes is: no update for the first batch_size - 1
episodes, one update at the last. -/
lemma flags_of_full_batch (n b : ℕ) (hb : 0 < b) (hn : n % b = 0) :
    (List.range b).map (fun j => decide ((n + j + 1) % b = 0))
      = List.replicate (b - 1) false ++ [true] := by
  obtain ⟨m, rfl⟩ : ∃ m, b = m + 1 := ⟨b - 1, (Nat.succ_pred_eq_of_pos hb).symm⟩
  obtain ⟨k, hk⟩ := Nat.dvd_of_mod_eq_zero hn
  rw [List.range_succ, List.map_append]
  have hlast : (n + m + 1) % (m + 1) = 0 := by
    have : n + m + 1 = (m + 1) * k + (m + 1) * 1 := by omega
    rw [this, ← Nat.mul_add, Nat.mul_mod_right]
  have hinner : ∀ j ∈ List.range m,
      decide ((n + j + 1) % (m + 1) = 0) = false := by
    intro j hj
    have hj' : j < m := List.mem_range.mp hj
    have hmod : (n + j + 1) % (m + 1) = j + 1 := by
      have : n + j + 1 = (m + 1) * k + (j + 1) := by omega
      rw [this, Nat.mul_add_mod]
      exact Nat.mod_eq_of_lt (by omega)
    simp [hmod]
  have hrep : (List.range m).map (fun j => decide ((n + j + 1) % (m + 1) = 0))
      = List.replicate m false := by
    have hlen : ((List.range m).map
        (fun j => decide ((n + j + 1) % (m + 1) = 0))).length = m := by
      simp
    have hmem : ∀ x ∈ (List.range m).map
        (fun j => decide ((n + j + 1) % (m + 1) = 0)), x = false := by
      intro x hx
      obtain ⟨j, hj, hjx⟩ := List.mem_map.mp hx
      rw [← hjx]
      exact hinner j hj
    have h2 := List.eq_replicate_of_mem hmem
    rwa [hlen] at h2
  rw [hrep]
  simp [hlast]

/-- Claim C4: weights are mutated only at batch boundaries.  Off a boundary
the episode-end transition leaves both weight matrices untouched; starting
from a counter at a multiple of batch_size, running exactly batch_size
episodes triggers the optimizer update exactly once (at the last episode of
the batch, and only there), while running batch_size - 1 episodes leaves
both weight matrices unchanged and leaves the gradient buffer equal to the
accumulated episode gradients — nonzero whenever the buffer started zero and
the accumulated gradients are nonzero. -/
theorem batch_boundary_update (sqrtA : ℚ → ℚ) (hp : Hyper) {H D A : ℕ}
    (s : TrainVars H D A) (hb : 0 < hp.batch_size)
    (hn : s.episode_number % hp.batch_size = 0) :
    (∀ (ep : EpData H D A) (s' : TrainVars H D A),
      (s'.episode_number + 1) % hp.batch_size ≠ 0 →
      (episodeEnd sqrtA hp ep s').1.pack.w1 = s'.pack.w1 ∧
      (episodeEnd sqrtA hp ep s').1.pack.w2 = s'.pack.w2) ∧
    (∀ eps : List (EpData H D A), eps.length = hp.batch_size →
      (runEpisodes sqrtA hp eps s).2 =
        List.replicate (hp.batch_size - 1) false ++ [true] ∧
      (runEpisodes sqrtA hp eps s).2.count true = 1) ∧
    (∀ eps : List (EpData H D A), eps.length = hp.batch_size - 1 →
      (runEpisodes sqrtA hp eps s).1.pack.w1 = s.pack.w1 ∧
      (runEpisodes sqrtA hp eps s).1.pack.w2 = s.pack.w2 ∧
      (runEpisodes sqrtA hp eps s).1.pack.g1 = s.pack.g1 + sumGrad1 eps ∧
      (runEpisodes sqrtA hp eps s).1.pack.g2 = s.pack.g2 + sumGrad2 eps ∧
      (s.pack.g1 = 0 → sumGrad1 eps ≠ 0 →
        (runEpisodes sqrtA hp eps s).1.pack.g1 ≠ 0)) ∧
    (∀ (ep : EpData H D A) (s' : TrainVars H D A),
      (episodeEnd sqrtA hp ep s').2 =
        decide ((s'.episode_number + 1) % hp.batch_size = 0)) := by
  refine ⟨?_, ?_, ?_, fun ep s' => rfl⟩
  · intro ep s' h
    rw [episodeEnd_pack_no_update sqrtA hp ep s' h]
    exact ⟨rfl, rfl⟩
  · intro eps hlen
    have hflags : (runEpisodes sqrtA hp eps s).2 =
        List.replicate (hp.batch_size - 1) false ++ [true] := by
      rw [runEpisodes_flags, hlen]
      exact flags_of_full_batch s.episode_number hp.batch_size hb hn
    refine ⟨hflags, ?_⟩
    rw [hflags]
    simp [List.count_replicate]
  · intro eps hlen
    obtain ⟨k, hk⟩ := Nat.dvd_of_mod_eq_zero hn
    have hno : ∀ j, j < eps.length →
        (s.episode_number + j + 1) % hp.batch_size ≠ 0 := by
      intro j hj
      rw [hlen] at hj
      have hmod : (s.episode_number + j + 1) % hp.batch_size = j + 1 := by
        have harith : s.episode_number + j + 1 = hp.batch_size * k + (j + 1) := by
          omega
        rw [harith, Nat.mul_add_mod]
        exact Nat.mod_eq_of_lt (by omega)
      rw [hmod]
      omega
    obtain ⟨w1e, w2e, _, _, g1e, g2e⟩ := runEpisodes_no_update sqrtA hp eps s hno
    refine ⟨w1e, w2e, g1e, g2e, ?_⟩
    intro hz hsum
    rw [g1e, hz, zero_add]
    exact hsum

/-- Witness for claim C4 at batch_size 2, the all-zero 1×1×1 start state at
episode counter 0, and two unit-gradient episodes: the update fires exactly
once over the two episodes, and the one-episode run leaves the weights
unchanged with a nonzero gradient buffer. -/
theorem batch_boundary_update_witness :
    0 < sampleHyper.batch_size ∧
    sampleState.episode_number % sampleHyper.batch_size = 0 ∧
    (runEpisodes (fun y : ℚ => y) sampleHyper [sampleEp, sampleEp]
      sampleState).2.count true = 1 ∧
    (runEpisodes (fun y : ℚ => y) sampleHyper [sampleEp]
      sampleState).1.pack.w1 = sampleState.pack.w1 ∧
    (runEpisodes (fun y : ℚ => y) sampleHyper [sampleEp]
      sampleState).1.pack.g1 ≠ 0 :=
  ⟨by decide, by decide,
   ((batch_boundary_update (fun y : ℚ => y) sampleHyper sampleState
      (by decide) (by decide)).2.1 [sampleEp, sampleEp] (by decide)).2,
   ((batch_boundary_update (fun y : ℚ => y) sampleHyper sampleState
      (by decide) (by decide)).2.2.1 [sampleEp] (by decide)).1,
   ((batch_boundary_update (fun y : ℚ => y) sampleHyper sampleState
      (by decide) (by decide)).2.2.1 [sampleEp] (by decide)).2.2.2.2
     (by funext i j; rfl)
     (by
      intro hcontra
      have := congrFun (congrFun hcontra 0) 0
      norm_num [sumGrad1, sampleEp] at this)⟩

/-- Claim C8: saving a checkpoint and loading it on resume reproduces the
weights W1 and W2, the episode counter, the running reward and its history,
and the four hyperparameters exactly; and the resumed run fires optimizer
updates at the very same per-episode positions as the uninterrupted run,
for any two episode lists of equal length. -/
theorem checkpoint_roundtrip (sqrtA : ℚ → ℚ) (hp : Hyper) {H D A : ℕ}
    (s : TrainVars H D A) :
    (loadConfig (saveConfig hp s)).2.pack.w1 = s.pack.w1 ∧
    (loadConfig (saveConfig hp s)).2.pack.w2 = s.pack.w2 ∧
    (loadConfig (saveConfig hp s)).2.episode_number = s.episode_number ∧
    (loadConfig (saveConfig hp s)).2.running_reward = s.running_reward ∧
    (loadConfig (saveConfig hp s)).2.running_reward_list =
      s.running_reward_list ∧
    (loadConfig (saveConfig hp s)).1.gamma = hp.gamma ∧
    (loadConfig (saveConfig hp s)).1.batch_size = hp.batch_size ∧
    (loadConfig (saveConfig hp s)).1.learning_rate = hp.learning_rate ∧
    (loadConfig (saveConfig hp s)).1.decay_rate = hp.decay_rate ∧
    (∀ eps eps' : List (EpData H D A), eps'.length = eps.length →
      (runEpisodes sqrtA (loadConfig (saveConfig hp s)).1 eps'
        (loadConfig (saveConfig hp s)).2).2 =
      (runEpisodes sqrtA hp eps s).2) := by
  refine ⟨rfl, rfl, rfl, rfl, rfl, rfl, rfl, rfl, rfl, ?_⟩
  intro eps eps' hlen
  rw [runEpisodes_flags, runEpisodes_flags, hlen]
  rfl

/-- Witness for claim C8: the resumed run from the loaded checkpoint fires
its update at the same position as the original run for a one-episode
continuation of the concrete sample state. -/
theorem checkpoint_roundtrip_witness :
    ([sampleEp] : List (EpData 1 1 1)).length = [sampleEp].length ∧
    (runEpisodes (fun y : ℚ => y)
      (loadConfig (saveConfig sampleHyper sampleState)).1 [sampleEp]
      (loadConfig (saveConfig sampleHyper sampleState)).2).2 =
    (runEpisodes (fun y : ℚ => y) sampleHyper [sampleEp] sampleState).2 :=
  ⟨rfl,
   (checkpoint_roundtrip (fun y : ℚ => y) sampleHyper
      sampleState).2.2.2.2.2.2.2.2.2 [sampleEp] [sampleEp] rfl⟩

end MsPacmanRL
